import Mathlib

/-!
Verification of the plugin/pipeline core of the aiml-config-portal repository
(`plugin_manager.py`, `http_input.py`, `json_parser.py`, `slack_alert.py`).

Python data is modelled by the inductive `Val`; Python `dict`s are modelled as
association lists with string keys, with operations (`aget`, `aset`, `adel`,
`dupdate`) reproducing CPython's insertion-order semantics (a re-assignment
keeps the key's first position and takes the last value).  Python functions
that can raise are modelled as `Except String _`, the error string naming the
exception class.  Machine floats appearing in health-rate computations are
modelled as exact rationals.
-/

namespace AimlPortal

/-- Python/JSON values.  Event keys are modelled as strings (all events and
configurations manipulated by this code use string keys).

A Python `float` arising from a JSON numeral is carried as the exact decimal
value `m·10^e` (`float m e`, kept normalized: `m` not divisible by 10, and
`(0, 0)` for zero), plus the `nan` / `±Infinity` constants the `json` module
accepts.  The decimal→binary64 rounding CPython performs (which can identify
distinct literals, or overflow a huge literal to `inf`) is not modelled: no
code path in this repository inspects a parsed number's value — numbers only
flow through events as opaque leaves or are compared against integer bounds
in `validate_config`/`collect`, where the comparison helpers below give the
exact-decimal answer. -/
inductive Val where
  | null : Val
  | bool : Bool → Val
  | int : Int → Val
  | float : Int → Int → Val
  | nan : Val
  | inf : Bool → Val
  | str : String → Val
  | arr : List Val → Val
  | dict : List (String × Val) → Val
deriving Repr

/-- A Python dict with string keys, in insertion order. -/
abbrev Dict := List (String × Val)

/-- `d.get(k)` / `k in d` lookup on an association list. -/
def aget {α : Type} (l : List (String × α)) (k : String) : Option α :=
  (l.find? (fun p => p.1 = k)).map (·.2)

/-- `d.get(k, default)`. -/
def dgetD (d : Dict) (k : String) (v : Val) : Val := (aget d k).getD v

/-- `d[k] = v`: replace in place if the key exists, else append. -/
def aset {α : Type} (l : List (String × α)) (k : String) (v : α) : List (String × α) :=
  if (aget l k).isSome then l.map (fun p => if p.1 = k then (k, v) else p)
  else l ++ [(k, v)]

/-- `del d[k]` (total model; callers check presence where CPython would raise). -/
def adel {α : Type} (l : List (String × α)) (k : String) : List (String × α) :=
  l.filter (fun p => p.1 ≠ k)

/-- `d.update(other)` for a dict argument: assign every pair of `other` in order. -/
def dupdate (d other : Dict) : Dict :=
  other.foldl (fun acc p => aset acc p.1 p.2) d

/-- `dict(items)`: successive assignment, so first position / last value wins. -/
def listToDict (items : List (String × Val)) : Dict := dupdate [] items

/-- Python truthiness (`float` is falsy exactly at 0.0; `nan` and the
infinities are truthy). -/
def truthy : Val → Bool
  | .null => false
  | .bool b => b
  | .int n => n ≠ 0
  | .float m _ => m ≠ 0
  | .nan => true
  | .inf _ => true
  | .str s => s ≠ ""
  | .arr l => ¬ l.isEmpty
  | .dict d => ¬ d.isEmpty

/-- Integer view of a value: Python `bool` is an `int` subclass.  (Floats are
numeric too but not integer-valued; the comparison helpers below handle them.) -/
def pyInt : Val → Option Int
  | .int n => some n
  | .bool b => some (if b then 1 else 0)
  | _ => none

/-- The numeric interpretation used by Python's comparison operators: ints and
bools compare as integers, floats as their (exact decimal) value, and `nan` /
`±inf` by the IEEE rules; any other operand raises `TypeError` (`none`). -/
inductive NumV where
  | i : Int → NumV
  | dec : Int → Int → NumV
  | nv : NumV
  | pinf : NumV
  | ninf : NumV
deriving Repr, DecidableEq

def asNum : Val → Option NumV
  | .int n => some (.i n)
  | .bool b => some (.i (if b then 1 else 0))
  | .float m e => some (.dec m e)
  | .nan => some .nv
  | .inf p => some (if p then .pinf else .ninf)
  | _ => none

/-- `m·10^e ≤ c`, exactly, in integer arithmetic. -/
def decLeInt (m e c : Int) : Bool :=
  if 0 ≤ e then decide (m * 10 ^ e.toNat ≤ c) else decide (m ≤ c * 10 ^ (-e).toNat)

/-- `c ≤ m·10^e`, exactly. -/
def intLeDec (c m e : Int) : Bool :=
  if 0 ≤ e then decide (c ≤ m * 10 ^ e.toNat) else decide (c * 10 ^ (-e).toNat ≤ m)

/-- `m·10^e < c`, exactly. -/
def decLtInt (m e c : Int) : Bool :=
  if 0 ≤ e then decide (m * 10 ^ e.toNat < c) else decide (m < c * 10 ^ (-e).toNat)

/-- `c < m·10^e`, exactly. -/
def intLtDec (c m e : Int) : Bool :=
  if 0 ≤ e then decide (c < m * 10 ^ e.toNat) else decide (c * 10 ^ (-e).toNat < m)

/-- Python `v <= c` for an integer literal `c` (comparisons with `nan` are
false, never an error). -/
def numLeInt : NumV → Int → Bool
  | .i n, c => decide (n ≤ c)
  | .dec m e, c => decLeInt m e c
  | .nv, _ => false
  | .pinf, _ => false
  | .ninf, _ => true

/-- Python `c <= v`. -/
def intLeNum (c : Int) : NumV → Bool
  | .i n => decide (c ≤ n)
  | .dec m e => intLeDec c m e
  | .nv => false
  | .pinf => true
  | .ninf => false

/-- Python `v < c`. -/
def numLtInt : NumV → Int → Bool
  | .i n, c => decide (n < c)
  | .dec m e, c => decLtInt m e c
  | .nv, _ => false
  | .pinf, _ => false
  | .ninf, _ => true

/-- Python `c < v`. -/
def intLtNum (c : Int) : NumV → Bool
  | .i n => decide (c < n)
  | .dec m e => intLtDec c m e
  | .nv => false
  | .pinf => true
  | .ninf => false

/-- Exact-decimal rendering of `float m e` (normalized), matching CPython's
`repr` for floats whose shortest repr is plain decimal notation; CPython
switches to scientific notation for extreme exponents, which this model (never
exercised: the only f-string on a parsed value is the `prefix` config field,
declared as a string) does not reproduce. -/
def decRender (m e : Int) : String :=
  if 0 ≤ e then toString (m * 10 ^ e.toNat) ++ ".0"
  else
    let k := (-e).toNat
    let a := m.natAbs
    let ip := a / 10 ^ k
    let fp := a % 10 ^ k
    let fpStr := toString fp
    let pad := String.mk (List.replicate (k - fpStr.length) '0')
    (if m < 0 then "-" else "") ++ toString ip ++ "." ++ pad ++ fpStr

/-- f-string rendering of a value (only scalar cases are ever reached here). -/
def pyStr : Val → String
  | .str s => s
  | .int n => toString n
  | .bool b => if b then "True" else "False"
  | .null => "None"
  | .float m e => decRender m e
  | .nan => "nan"
  | .inf p => if p then "inf" else "-inf"
  | .arr _ => "[...]"
  | .dict _ => "..."

/-- `s.startswith(pre)`, computed on the character lists so that closed terms
reduce in the kernel. -/
def pyStartsWith (s pre : String) : Bool := pre.data.isPrefixOf s.data

/-- Equality of a value with a given string literal (Python `==` / `in [..]`). -/
def isVstr (v : Val) (s : String) : Bool :=
  match v with
  | .str t => t = s
  | _ => false

def isStrV : Val → Bool
  | .str _ => true
  | _ => false

def isDictV : Val → Bool
  | .dict _ => true
  | _ => false

/-! ### A model of `json.loads`

A fuel-indexed recursive-descent parser producing `Val`, following CPython's
default (strict-mode) `json` decoder: objects, arrays, strings with the eight
basic escapes and `\uXXXX` (surrogate pairs combined), numbers per the
decoder's regular expression — `-?(0|[1-9]\d*)(\.\d+)?([eE][+-]?\d+)?`, with
no leading zeros, an integer result only when neither fraction nor exponent
is present — and the constants `true`/`false`/`null`/`NaN`/`Infinity`/
`-Infinity`.  Literal control characters below U+0020 inside strings are
rejected, as strict mode does.  `none` models `json.JSONDecodeError`.
Duplicate object keys behave like CPython: last value, first position.

Two documented model boundaries: an escape denoting a lone UTF-16 surrogate
(which CPython keeps, producing a non-scalar `str` that a Lean `String`
cannot represent) is rejected, and the interpreter's recursion limit on
deeply nested input (a `RecursionError`, not a `JSONDecodeError`) is not
modelled. -/

def isJsonWs (c : Char) : Bool := c = ' ' ∨ c = '\t' ∨ c = '\n' ∨ c = '\r'

def skipWs (cs : List Char) : List Char := cs.dropWhile isJsonWs

/-- Value of a hexadecimal digit. -/
def hexVal (c : Char) : Option Nat :=
  if '0' ≤ c ∧ c ≤ '9' then some (c.toNat - 48)
  else if 'a' ≤ c ∧ c ≤ 'f' then some (c.toNat - 87)
  else if 'A' ≤ c ∧ c ≤ 'F' then some (c.toNat - 55)
  else none

/-- Parse the body of a JSON string literal, after the opening quote.
Basic escapes, `\uXXXX` with surrogate-pair combination, and strict-mode
rejection of literal control characters. -/
def parseStrBody : List Char → Option (List Char × List Char)
  | [] => none
  | '"' :: rest => some ([], rest)
  | '\\' :: 'u' :: a :: b :: c :: d :: rest =>
    (match hexVal a, hexVal b, hexVal c, hexVal d with
     | some x, some y, some z, some w =>
       let n := ((x * 16 + y) * 16 + z) * 16 + w
       if 0xD800 ≤ n ∧ n ≤ 0xDBFF then
         -- high surrogate: CPython combines a following low-surrogate escape;
         -- a lone surrogate denotes a string outside the modelled
         -- (scalar-value) domain and is rejected by the model
         (match rest with
          | '\\' :: 'u' :: a2 :: b2 :: c2 :: d2 :: rest2 =>
            (match hexVal a2, hexVal b2, hexVal c2, hexVal d2 with
             | some x2, some y2, some z2, some w2 =>
               let n2 := ((x2 * 16 + y2) * 16 + z2) * 16 + w2
               if 0xDC00 ≤ n2 ∧ n2 ≤ 0xDFFF then
                 (parseStrBody rest2).map (fun (p : List Char × List Char) =>
                   (Char.ofNat (0x10000 + (n - 0xD800) * 0x400 + (n2 - 0xDC00)) :: p.1, p.2))
               else none
             | _, _, _, _ => none)
          | _ => none)
       else if 0xDC00 ≤ n ∧ n ≤ 0xDFFF then none
       else (parseStrBody rest).map (fun (p : List Char × List Char) =>
         (Char.ofNat n :: p.1, p.2))
     | _, _, _, _ => none)
  | '\\' :: e :: rest =>
    (match e with
     | '"' => some '"'
     | '\\' => some '\\'
     | '/' => some '/'
     | 'n' => some '\n'
     | 't' => some '\t'
     | 'r' => some '\r'
     | 'b' => some (Char.ofNat 8)
     | 'f' => some (Char.ofNat 12)
     | _ => none).bind
      (fun c => (parseStrBody rest).map
        (fun (p : List Char × List Char) => (c :: p.1, p.2)))
  | c :: rest =>
    if c.toNat < 0x20 then none
    else (parseStrBody rest).map (fun (p : List Char × List Char) => (c :: p.1, p.2))

/-- Consume a run of decimal digits. -/
def parseDigits (acc : Nat) : List Char → Nat × List Char
  | c :: rest => if c.isDigit then parseDigits (acc * 10 + (c.toNat - 48)) rest else (acc, c :: rest)
  | [] => (acc, [])

/-- Consume a run of decimal digits, also counting them. -/
def parseDigitsCnt (acc cnt : Nat) : List Char → Nat × Nat × List Char
  | c :: rest =>
    if c.isDigit then parseDigitsCnt (acc * 10 + (c.toNat - 48)) (cnt + 1) rest
    else (acc, cnt, c :: rest)
  | [] => (acc, cnt, [])

/-- Strip factors of 10 from the mantissa (fuel-indexed so closed terms
reduce). -/
def stripZeros : Nat → Int → Int → Int × Int
  | 0, m, e => (m, e)
  | fuel + 1, m, e => if m % 10 = 0 then stripZeros fuel (m / 10) (e + 1) else (m, e)

/-- The normalized decimal float `m·10^e`. -/
def mkFloat (m e : Int) : Val :=
  if m = 0 then .float 0 0
  else
    match stripZeros m.natAbs m e with
    | (m1, e1) => .float m1 e1

/-- Parse a JSON number, the optional minus sign and first digit already
consumed.  Mirrors the CPython decoder's regular expression: it matches the
longest valid numeral and leaves the remainder (so `01` parses as `0` with
`1` left over, failing at the caller exactly as CPython does); an integer
results only when neither a fraction nor an exponent is present. -/
def parseNumAfterSign (neg : Bool) (c0 : Char) (cs : List Char) : Val × List Char :=
  match (if c0 = '0' then (0, cs) else parseDigits (c0.toNat - 48) cs) with
  | (ipart, rest1) =>
    let withFrac : Option (Nat × Nat) × List Char :=
      match rest1 with
      | '.' :: d :: t =>
        if d.isDigit then
          match parseDigitsCnt (ipart * 10 + (d.toNat - 48)) 1 t with
          | (m2, cnt, t2) => (some (m2, cnt), t2)
        else (none, rest1)
      | _ => (none, rest1)
    match withFrac with
    | (fracRes, rest2) =>
      let withExp : Option Int × List Char :=
        match rest2 with
        | e :: t =>
          if e = 'e' ∨ e = 'E' then
            match t with
            | '+' :: d :: t2 =>
              if d.isDigit then
                match parseDigits (d.toNat - 48) t2 with
                | (ev, t3) => (some (ev : Int), t3)
              else (none, rest2)
            | '-' :: d :: t2 =>
              if d.isDigit then
                match parseDigits (d.toNat - 48) t2 with
                | (ev, t3) => (some (-(ev : Int)), t3)
              else (none, rest2)
            | d :: t2 =>
              if d.isDigit then
                match parseDigits (d.toNat - 48) t2 with
                | (ev, t3) => (some (ev : Int), t3)
              else (none, rest2)
            | [] => (none, rest2)
          else (none, rest2)
        | [] => (none, rest2)
      match withExp with
      | (none, rest3) =>
        (match fracRes with
         | none => (Val.int (if neg then -(ipart : Int) else (ipart : Int)), rest3)
         | some (m2, cnt) =>
           (mkFloat (if neg then -(m2 : Int) else (m2 : Int)) (-(cnt : Int)), rest3))
      | (some ev, rest3) =>
        let m : Nat := match fracRes with | some (m2, _) => m2 | none => ipart
        let cnt : Int := match fracRes with | some (_, c2) => (c2 : Int) | none => 0
        (mkFloat (if neg then -(m : Int) else (m : Int)) (ev - cnt), rest3)

inductive PMode where
  | value : PMode
  | arrItems : PMode
  | objItems : PMode

/-- The parser core; `PMode.value` parses one JSON value, the other modes parse
the item lists of an array / object after the opening bracket (non-empty case).
Fuel-indexed so that closed calls reduce by `rfl` in the kernel. -/
def parseF : Nat → PMode → List Char → Option (Val × List Char)
  | 0, _, _ => none
  | fuel + 1, .value, cs =>
    match skipWs cs with
    | 'n' :: 'u' :: 'l' :: 'l' :: rest => some (.null, rest)
    | 't' :: 'r' :: 'u' :: 'e' :: rest => some (.bool true, rest)
    | 'f' :: 'a' :: 'l' :: 's' :: 'e' :: rest => some (.bool false, rest)
    | '"' :: rest => (parseStrBody rest).map (fun p => (.str (String.mk p.1), p.2))
    | '[' :: rest =>
      (match skipWs rest with
       | ']' :: r2 => some (.arr [], r2)
       | r1 => parseF fuel .arrItems r1)
    | '{' :: rest =>
      (match skipWs rest with
       | '}' :: r2 => some (.dict [], r2)
       | r1 => parseF fuel .objItems r1)
    | 'N' :: 'a' :: 'N' :: rest => some (.nan, rest)
    | 'I' :: 'n' :: 'f' :: 'i' :: 'n' :: 'i' :: 't' :: 'y' :: rest => some (.inf true, rest)
    | '-' :: 'I' :: 'n' :: 'f' :: 'i' :: 'n' :: 'i' :: 't' :: 'y' :: rest =>
      some (.inf false, rest)
    | '-' :: c :: rest =>
      if c.isDigit then some (parseNumAfterSign true c rest)
      else none
    | c :: rest =>
      if c.isDigit then some (parseNumAfterSign false c rest)
      else none
    | [] => none
  | fuel + 1, .arrItems, cs =>
    match parseF fuel .value cs with
    | none => none
    | some (v, rest) =>
      match skipWs rest with
      | ',' :: r2 =>
        (match parseF fuel .arrItems r2 with
         | some (.arr items, r3) => some (.arr (v :: items), r3)
         | _ => none)
      | ']' :: r2 => some (.arr [v], r2)
      | _ => none
  | fuel + 1, .objItems, cs =>
    match skipWs cs with
    | '"' :: r1 =>
      (match parseStrBody r1 with
       | none => none
       | some (k, r2) =>
         match skipWs r2 with
         | ':' :: r3 =>
           (match parseF fuel .value r3 with
            | none => none
            | some (v, r4) =>
              match skipWs r4 with
              | ',' :: r5 =>
                (match parseF fuel .objItems r5 with
                 | some (.dict items, r6) =>
                   -- CPython builds the object by successive assignment in
                   -- textual order; assigning the (already collapsed) later
                   -- pairs into the first binding reproduces that.
                   some (.dict (dupdate [(String.mk k, v)] items), r6)
                 | _ => none)
              | '}' :: r5 => some (.dict [(String.mk k, v)], r5)
              | _ => none)
         | _ => none)
    | _ => none

/-- `json.loads`: parse the whole string (surrounding whitespace allowed);
`none` models `json.JSONDecodeError`. -/
def loads (s : String) : Option Val :=
  match parseF (2 * s.data.length + 4) .value s.data with
  | some (v, rest) => if skipWs rest = [] then some v else none
  | none => none

/-! ### `json_parser.py` — `JSONParserPlugin` -/

/-- Instance state: the configuration stored by `initialize` plus the two
lifetime counters. -/
structure JPState where
  config : Dict
  parse_success : Nat
  parse_errors : Nat
deriving Repr

/-- `JSONParserPlugin.validate_config`.  Total: truthiness and membership in a
string list never raise, whatever the value types. -/
def jsonValidateConfig (config : Dict) : Bool × Option String :=
  if ¬ truthy (dgetD config "source_field" .null) then
    (false, some "Source field is required")
  else
    let oe := dgetD config "on_error" (.str "keep")
    if isVstr oe "keep" ∨ isVstr oe "drop" ∨ isVstr oe "mark" then (true, none)
    else (false, some "on_error must be one of: keep, drop, mark")

/-- `JSONParserPlugin.initialize`: stores the config, zeroes the counters. -/
def jpInit (config : Dict) : JPState := ⟨config, 0, 0⟩

/-- The item-collection part of `JSONParserPlugin._flatten_dict` (the Python
code collects `(dot-joined-key, leaf)` items and passes them to `dict(...)`). -/
def flattenItems : String → Dict → List (String × Val)
  | _, [] => []
  | parent, (k, v) :: rest =>
    let nk := if parent = "" then k else parent ++ "." ++ k
    (match v with
     | .dict d2 => flattenItems nk d2
     | _ => [(nk, v)]) ++ flattenItems parent rest
termination_by _ d => sizeOf d
decreasing_by all_goals (simp_wf <;> omega)

/-- `JSONParserPlugin._flatten_dict` (with its default separator `"."`). -/
def flattenDict (parent : String) (d : Dict) : Dict :=
  listToDict (flattenItems parent d)

/-- `JSONParserPlugin._handle_error`. -/
def jpHandleError (config : Dict) (event : Dict) (error : String) : Option Dict :=
  let oe := dgetD config "on_error" (.str "keep")
  if isVstr oe "drop" then none
  else if isVstr oe "mark" then
    some (aset (aset event "_parse_error" (.str error)) "_parser" (.str "json_parser"))
  else some event

/-- The tail of `JSONParserPlugin.process` after a parse succeeded: flatten,
add key names rendered through the f-string, store, drop the original field.
An `Except.error` models an exception escaping `process` (only
`json.JSONDecodeError` is caught there).  `dict.update` is modelled for
mapping arguments; a non-mapping argument raises, as the scalar and array
values produced by `json.loads` do in CPython. -/
def jpFinish (st : JPState) (event : Dict) (source_field : String)
    (target_field : Val) (parsed0 : Val) : Except String (JPState × Option Dict) :=
  match (if truthy (dgetD st.config "flatten" (.bool false)) then
           match parsed0 with
           | .dict d => Except.ok (Val.dict (flattenDict "" d))
           | _ => Except.error "AttributeError"
         else Except.ok parsed0) with
  | .error e => .error e
  | .ok parsed1 =>
    let pre := dgetD st.config "prefix" (.str "")
    match (if truthy pre then
             match parsed1 with
             | .dict d =>
               Except.ok (Val.dict (listToDict (d.map (fun p => (pyStr pre ++ p.1, p.2)))))
             | _ => Except.error "AttributeError"
           else Except.ok parsed1) with
    | .error e => .error e
    | .ok parsed2 =>
      match (if truthy target_field then
               match target_field with
               | .str t => Except.ok (aset event t parsed2)
               | _ => Except.error "TypeError"
             else
               match parsed2 with
               | .dict d => Except.ok (dupdate event d)
               | _ => Except.error "TypeError") with
      | .error e => .error e
      | .ok ev1 =>
        let ev2 := if truthy (dgetD st.config "keep_original" (.bool true)) then ev1
                   else adel ev1 source_field
        .ok ({ st with parse_success := st.parse_success + 1 }, some ev2)

/-- `JSONParserPlugin.process`.  `Except.error` models an uncaught exception;
`Except.ok (st, none)` models returning `None` (event dropped). -/
def jpProcess (st : JPState) (event : Dict) : Except String (JPState × Option Dict) :=
  match aget st.config "source_field" with
  | none => .error "KeyError"
  | some sfv =>
    let target_field := dgetD st.config "target_field" (.str "")
    match sfv with
    | .str source_field =>
      match aget event source_field with
      | none => .ok (st, some event)
      | some source_value =>
        match source_value with
        | .str s =>
          (match loads s with
           | none => .ok ({ st with parse_errors := st.parse_errors + 1 },
                          jpHandleError st.config event "JSONDecodeError")
           | some parsed => jpFinish st event source_field target_field parsed)
        | .dict _ => jpFinish st event source_field target_field source_value
        | _ => .ok (st, jpHandleError st.config event "Not valid JSON")
    | _ =>
      -- a non-string `source_field` never equals a (string) event key,
      -- so `source_field not in event` holds and the event passes through
      .ok (st, some event)

/-- `JSONParserPlugin.process_batch`: apply `process` in order, keep survivors.
An exception propagates with the counters mutated by the earlier events. -/
def jpProcessBatch : JPState → List Dict → Except (JPState × String) (JPState × List Dict)
  | st, [] => .ok (st, [])
  | st, e :: rest =>
    match jpProcess st e with
    | .error err => .error (st, err)
    | .ok (st1, none) => jpProcessBatch st1 rest
    | .ok (st1, some r) =>
      match jpProcessBatch st1 rest with
      | .error p => .error p
      | .ok (st2, rs) => .ok (st2, r :: rs)

/-- The health report of `JSONParserPlugin.health_check`; the float success
rate is modelled as an exact rational. -/
structure JPHealth where
  status : String
  parse_success : Nat
  parse_errors : Nat
  success_rate : ℚ
deriving Repr

/-- `JSONParserPlugin.health_check`, with the code's sequential status
assignments reproduced literally. -/
def jpHealthCheck (st : JPState) : JPHealth :=
  let total : Nat := st.parse_success + st.parse_errors
  let success_rate : ℚ := if total > 0 then (st.parse_success : ℚ) / (total : ℚ) * 100 else 0
  let st0 := "healthy"
  let st1 := if success_rate < 50 then "degraded" else st0
  let st2 := if st.parse_errors > 1000 then "unhealthy" else st1
  ⟨st2, st.parse_success, st.parse_errors, success_rate⟩

/-! ### `http_input.py` — `HTTPInputPlugin` -/

structure HTTPState where
  config : Dict
  buffer : List Dict
  total_received : Nat
deriving Repr

/-- `HTTPInputPlugin.validate_config`.  Comparing a non-numeric `port` or
`batch_size` with an integer raises `TypeError`; calling `.startswith` on a
non-string `path` raises `AttributeError`.  The chained comparison
`1024 <= port <= 65535` and the `batch_size` bounds follow Python's numeric
comparison (exact for ints, bools and decimal floats; false on `nan`). -/
def httpValidateConfig (config : Dict) : Except String (Bool × Option String) :=
  match asNum (dgetD config "port" (.int 8080)) with
  | none => .error "TypeError"
  | some port =>
    if ¬ (intLeNum 1024 port ∧ numLeInt port 65535) then
      .ok (false, some "Port must be between 1024 and 65535")
    else
      match dgetD config "path" (.str "") with
      | .str path =>
        if ¬ pyStartsWith path "/" then .ok (false, some "Path must start with /")
        else
          match asNum (dgetD config "batch_size" (.int 100)) with
          | none => .error "TypeError"
          | some bs =>
            if numLtInt bs 1 ∨ intLtNum 10000 bs then
              .ok (false, some "Batch size must be between 1 and 10000")
            else .ok (true, none)
      | _ => .error "AttributeError"

/-- `HTTPInputPlugin.initialize`: sets up the empty buffer and counters, then
formats a start-up message reading `config['port']` and `config['path']` by
direct indexing — a missing key raises `KeyError`. -/
def httpInit (config : Dict) : Except String HTTPState :=
  if ((aget config "port").isSome ∧ (aget config "path").isSome) then
    .ok ⟨config, [], 0⟩
  else .error "KeyError"

/-- `HTTPInputPlugin.collect`: empty result below the batch-size threshold,
otherwise the whole buffer is returned and cleared.  `len(buffer) <
batch_size` follows Python's numeric comparison. -/
def httpCollect (st : HTTPState) : Except String (HTTPState × List Dict) :=
  match asNum (dgetD st.config "batch_size" (.int 100)) with
  | none => .error "TypeError"
  | some bs =>
    if intLtNum (st.buffer.length : Int) bs then .ok (st, [])
    else .ok ({ st with buffer := [] }, st.buffer)

/-- `HTTPInputPlugin.receive_log` (`ts` models `time.time()`). -/
def httpReceiveLog (ts : Int) (st : HTTPState) (data : Val) :
    Except String (HTTPState × Bool) :=
  match aget st.config "port", aget st.config "path" with
  | some port, some path =>
    .ok ({ st with
           buffer := st.buffer ++
             [[("timestamp", .int ts), ("source", .str "http_endpoint"), ("data", data),
               ("metadata", .dict [("port", port), ("path", path)])]],
           total_received := st.total_received + 1 }, true)
  | _, _ => .error "KeyError"

/-- The status of `HTTPInputPlugin.health_check` (its message and metrics index
`config['port']` and `config['path']`, raising `KeyError` when absent). -/
def httpHealthStatus (st : HTTPState) : Except String String :=
  if ((aget st.config "port").isSome ∧ (aget st.config "path").isSome) then .ok "healthy"
  else .error "KeyError"

/-! ### `slack_alert.py` — `WebhookOutputPlugin` and `SlackAlertPlugin` -/

structure WebhookState where
  config : Dict
  success_count : Nat
  error_count : Nat
deriving Repr

/-- `WebhookOutputPlugin.validate_config`. -/
def webhookValidateConfig (config : Dict) : Except String (Bool × Option String) :=
  match dgetD config "url" (.str "") with
  | .str url =>
    if ¬ (pyStartsWith url "http://" ∨ pyStartsWith url "https://") then
      .ok (false, some "URL must start with http:// or https://")
    else
      match asNum (dgetD config "batch_size" (.int 100)) with
      | none => .error "TypeError"
      | some bs =>
        if numLtInt bs 1 ∨ intLtNum 10000 bs then
          .ok (false, some "Batch size must be between 1 and 10000")
        else .ok (true, none)
  | _ => .error "AttributeError"

/-- `WebhookOutputPlugin.initialize` (its start-up message indexes
`config['url']`). -/
def webhookInit (config : Dict) : Except String WebhookState :=
  if (aget config "url").isSome then .ok ⟨config, 0, 0⟩ else .error "KeyError"

/-- The `{success_count, failed_count, errors}` result of a send. -/
structure SendResult where
  success_count : Nat
  failed_count : Nat
  errors : List String
deriving Repr

/-- `WebhookOutputPlugin.send_batch`: the simulated request always succeeds
(the `try` block cannot raise), counting the whole batch as successes. -/
def webhookSendBatch (st : WebhookState) (events : List Dict) : WebhookState × SendResult :=
  ({ st with success_count := st.success_count + events.length },
   ⟨events.length, 0, []⟩)

/-- The status of `WebhookOutputPlugin.health_check` (its metrics index
`config['url']`). -/
def webhookHealthStatus (st : WebhookState) : Except String String :=
  if (aget st.config "url").isSome then
    let total : Nat := st.success_count + st.error_count
    let rate : ℚ := if total > 0 then (st.success_count : ℚ) / (total : ℚ) * 100 else 100
    .ok (if rate > 95 then "healthy" else if rate > 50 then "degraded" else "unhealthy")
  else .error "KeyError"

structure SlackState where
  config : Dict
  alerts_sent : Nat
deriving Repr

/-- `SlackAlertPlugin.validate_config`. -/
def slackValidateConfig (config : Dict) : Except String (Bool × Option String) :=
  match dgetD config "webhook_url" (.str "") with
  | .str u =>
    if ¬ pyStartsWith u "https://hooks.slack.com/" then
      .ok (false, some "Invalid Slack webhook URL format")
    else .ok (true, none)
  | _ => .error "AttributeError"

/-- `SlackAlertPlugin.initialize` (only `config.get` is used — cannot raise). -/
def slackInit (config : Dict) : Except String SlackState := .ok ⟨config, 0⟩

/-- The status of `SlackAlertPlugin.health_check` (only `config.get`). -/
def slackHealthStatus (_st : SlackState) : Except String String := .ok "healthy"

/-! ### `plugin_manager.py` — `PluginManager` -/

/-- The four reference plugin classes. -/
inductive PluginClass where
  | httpC : PluginClass
  | jsonC : PluginClass
  | webhookC : PluginClass
  | slackC : PluginClass
deriving Repr, DecidableEq

/-- A live plugin instance (tagged by its class). -/
inductive PlugInstance where
  | http : HTTPState → PlugInstance
  | jsonp : JPState → PlugInstance
  | webhook : WebhookState → PlugInstance
  | slack : SlackState → PlugInstance
deriving Repr

/-- Dynamic dispatch of `validate_config`. -/
def classValidate : PluginClass → Dict → Except String (Bool × Option String)
  | .httpC, c => httpValidateConfig c
  | .jsonC, c => .ok (jsonValidateConfig c)
  | .webhookC, c => webhookValidateConfig c
  | .slackC, c => slackValidateConfig c

/-- Dynamic dispatch of `initialize`, producing the live instance. -/
def classInit : PluginClass → Dict → Except String PlugInstance
  | .httpC, c => (httpInit c).map .http
  | .jsonC, c => .ok (.jsonp (jpInit c))
  | .webhookC, c => (webhookInit c).map .webhook
  | .slackC, c => (slackInit c).map .slack

/-- The registry ids under which `PluginRegistry.register` stores the four
reference classes (`"{category}:{name}"`). -/
def defaultRegistry : List (String × PluginClass) :=
  [("input:HTTP Endpoint", .httpC), ("processing:JSON Parser", .jsonC),
   ("output:Webhook", .webhookC), ("alert:Slack Notifications", .slackC)]

/-- `PluginManager` state: the registry plus the two id-keyed tables. -/
structure PluginManager where
  registry : List (String × PluginClass)
  instances : List (String × PlugInstance)
  configurations : List (String × Dict)
deriving Repr

/-- `PluginManager.create_instance`: lookup, validate, initialize; every
exception in that `try` block is caught and rendered as the error string. -/
def create_instance (pm : PluginManager) (plugin_id instance_id : String)
    (config : Dict) : PluginManager × Bool × Option String :=
  match aget pm.registry plugin_id with
  | none => (pm, false, some ("Plugin " ++ plugin_id ++ " not found"))
  | some cls =>
    match classValidate cls config with
    | .error e => (pm, false, some e)
    | .ok (false, err) => (pm, false, err)
    | .ok (true, _) =>
      match classInit cls config with
      | .error e => (pm, false, some e)
      | .ok inst =>
        ({ pm with instances := aset pm.instances instance_id inst,
                   configurations := aset pm.configurations instance_id config },
         true, none)

/-- `PluginManager.remove_instance`: `del` on both tables; if the instance
table has the id but the configuration table does not, the second `del`
raises `KeyError` with the instance entry already gone. -/
def remove_instance (pm : PluginManager) (instance_id : String) :
    PluginManager × Except String Bool :=
  if (aget pm.instances instance_id).isSome then
    let pm1 := { pm with instances := adel pm.instances instance_id }
    if (aget pm.configurations instance_id).isSome then
      ({ pm1 with configurations := adel pm1.configurations instance_id }, .ok true)
    else (pm1, .error "KeyError")
  else (pm, .ok false)

/-- `health_check()['status']` of an instance (`.get('status')` on the health
dict never raises; the per-plugin health bodies can). -/
def instHealthStatus : PlugInstance → Except String String
  | .http st => httpHealthStatus st
  | .jsonp st => .ok (jpHealthCheck st).status
  | .webhook st => webhookHealthStatus st
  | .slack st => slackHealthStatus st

/-- `metadata.name` and `metadata.category.value` of an instance. -/
def instMeta : PlugInstance → String × String
  | .http _ => ("HTTP Endpoint", "input")
  | .jsonp _ => ("JSON Parser", "processing")
  | .webhook _ => ("Webhook", "output")
  | .slack _ => ("Slack Notifications", "alert")

/-- One row of `PluginManager.list_instances`. -/
structure InstanceRow where
  instance_id : String
  plugin_name : String
  plugin_category : String
  status : String
  config : Dict
deriving Repr

def listInstancesAux (configs : List (String × Dict)) :
    List (String × PlugInstance) → Except String (List InstanceRow)
  | [] => .ok []
  | (iid, inst) :: rest =>
    match instHealthStatus inst with
    | .error e => .error e
    | .ok status =>
      match aget configs iid with
      | none => .error "KeyError"
      | some cfg =>
        match listInstancesAux configs rest with
        | .error e => .error e
        | .ok rows =>
          .ok ({ instance_id := iid, plugin_name := (instMeta inst).1,
                 plugin_category := (instMeta inst).2, status := status,
                 config := cfg } :: rows)

/-- `PluginManager.list_instances`: `self.configurations[instance_id]` is a
direct indexing, raising `KeyError` when absent. -/
def list_instances (pm : PluginManager) : Except String (List InstanceRow) :=
  listInstancesAux pm.configurations pm.instances

/-! ### `plugin_manager.py` — `Pipeline` -/

structure Pipeline where
  name : String
  input_instances : List String
  processing_instances : List String
  output_instances : List String
  enabled : Bool
deriving Repr, DecidableEq

/-- The statistics record returned by `Pipeline.execute`. -/
structure PipelineStats where
  events_collected : Nat
  events_processed : Nat
  events_sent : Nat
  errors : List String
deriving Repr, DecidableEq

/-- Duck-typed `collect()` call: only the HTTP input has it; on any other
instance the attribute lookup raises.  (`httpCollect` raises, if at all,
before mutating, so the instance is returned unchanged on error.) -/
def instCollect : PlugInstance → Except String (PlugInstance × List Dict)
  | .http st => (httpCollect st).map (fun p => (.http p.1, p.2))
  | _ => .error "AttributeError"

/-- Duck-typed `process_batch` call; an error carries the instance with the
counters mutated by events processed before the exception. -/
def instProcessBatch : PlugInstance → List Dict →
    Except (PlugInstance × String) (PlugInstance × List Dict)
  | .jsonp st, evs =>
    (match jpProcessBatch st evs with
     | .error (st1, e) => .error (.jsonp st1, e)
     | .ok (st1, out) => .ok (.jsonp st1, out))
  | inst, _ => .error (inst, "AttributeError")

/-- Duck-typed `send_batch` call. -/
def instSendBatch : PlugInstance → List Dict →
    Except (PlugInstance × String) (PlugInstance × SendResult)
  | .webhook st, evs =>
    (match webhookSendBatch st evs with
     | (st1, r) => .ok (.webhook st1, r))
  | inst, _ => .error (inst, "AttributeError")

/-- Input stage of `Pipeline.execute`: a missing id is skipped; an exception
aborts the pass with the error string appended. -/
def collectPhase (pm : PluginManager) (stats : PipelineStats) (acc : List Dict) :
    List String → Except (PluginManager × PipelineStats) (PluginManager × PipelineStats × List Dict)
  | [] => .ok (pm, stats, acc)
  | iid :: rest =>
    match aget pm.instances iid with
    | none => collectPhase pm stats acc rest
    | some inst =>
      match instCollect inst with
      | .error e => .error (pm, { stats with errors := stats.errors ++ [e] })
      | .ok (inst1, evs) =>
        collectPhase { pm with instances := aset pm.instances iid inst1 }
          { stats with events_collected := stats.events_collected + evs.length }
          (acc ++ evs) rest

/-- Processing stage: each processor replaces the whole working set. -/
def processPhase (pm : PluginManager) (stats : PipelineStats) (events : List Dict) :
    List String → Except (PluginManager × PipelineStats) (PluginManager × PipelineStats × List Dict)
  | [] => .ok (pm, stats, events)
  | iid :: rest =>
    match aget pm.instances iid with
    | none => processPhase pm stats events rest
    | some inst =>
      match instProcessBatch inst events with
      | .error (inst1, e) =>
        .error ({ pm with instances := aset pm.instances iid inst1 },
                { stats with errors := stats.errors ++ [e] })
      | .ok (inst1, out) =>
        processPhase { pm with instances := aset pm.instances iid inst1 } stats out rest

/-- Output stage: success counts and reported errors accumulate per output. -/
def sendPhase (pm : PluginManager) (stats : PipelineStats) (events : List Dict) :
    List String → Except (PluginManager × PipelineStats) (PluginManager × PipelineStats)
  | [] => .ok (pm, stats)
  | iid :: rest =>
    match aget pm.instances iid with
    | none => sendPhase pm stats events rest
    | some inst =>
      match instSendBatch inst events with
      | .error (inst1, e) =>
        .error ({ pm with instances := aset pm.instances iid inst1 },
                { stats with errors := stats.errors ++ [e] })
      | .ok (inst1, r) =>
        sendPhase { pm with instances := aset pm.instances iid inst1 }
          { stats with events_sent := stats.events_sent + r.success_count,
                       errors := stats.errors ++ r.errors } events rest

/-- `Pipeline.execute`: disabled pipelines are a no-op; otherwise the three
stages run in sequence inside one `try`, and any exception is appended to the
error list with the statistics accumulated so far (`events_processed` is only
assigned after the processing loop finishes). -/
def Pipeline.execute (p : Pipeline) (pm : PluginManager) : PipelineStats × PluginManager :=
  let stats0 : PipelineStats := ⟨0, 0, 0, []⟩
  if ¬ p.enabled then (stats0, pm)
  else
    match collectPhase pm stats0 [] p.input_instances with
    | .error (pm1, st1) => (st1, pm1)
    | .ok (pm1, st1, evs) =>
      match processPhase pm1 st1 evs p.processing_instances with
      | .error (pm2, st2) => (st2, pm2)
      | .ok (pm2, st2, processed) =>
        let st2a := { st2 with events_processed := processed.length }
        match sendPhase pm2 st2a processed p.output_instances with
        | .error (pm3, st3) => (st3, pm3)
        | .ok (pm3, st3) => (st3, pm3)

/-- The plain record exported by `Pipeline.to_dict` / consumed by
`Pipeline.from_dict` (`none` models an absent key; a missing `name` would
raise in `from_dict` and is outside the claims). -/
structure PipelineData where
  name : String
  enabled : Option Bool
  inputs : Option (List String)
  processors : Option (List String)
  outputs : Option (List String)
deriving Repr, DecidableEq

/-- `Pipeline.to_dict`. -/
def Pipeline.to_dict (p : Pipeline) : PipelineData :=
  ⟨p.name, some p.enabled, some p.input_instances, some p.processing_instances,
   some p.output_instances⟩

/-- `Pipeline.from_dict` (the `plugin_manager` constructor argument carries no
serialized data and is dropped from the model). -/
def Pipeline.from_dict (d : PipelineData) : Pipeline :=
  { name := d.name, enabled := d.enabled.getD true,
    input_instances := d.inputs.getD [],
    processing_instances := d.processors.getD [],
    output_instances := d.outputs.getD [] }

/-! ### Spec-side definitions (from the specification's words) -/

/-- Spec §4.2 step 3, for a parse result `d` that is a mapping: "optionally
flatten nested mappings to dot-joined keys; optionally prefix every resulting
key; then either merge the result into the event's top level or store it under
a configured target field; optionally delete the original source field". -/
def jsonSpecResult (config : Dict) (event : Dict) (source_field : String) (d : Dict) : Dict :=
  let flat := if truthy (dgetD config "flatten" (.bool false)) then flattenDict "" d else d
  let pre := dgetD config "prefix" (.str "")
  let pref := if truthy pre then listToDict (flat.map (fun p => (pyStr pre ++ p.1, p.2))) else flat
  let tf := dgetD config "target_field" (.str "")
  let stored :=
    if truthy tf then
      (match tf with
       | .str t => aset event t (.dict pref)
       | _ => event)
    else dupdate event pref
  if truthy (dgetD config "keep_original" (.bool true)) then stored
  else adel stored source_field

/-- The pipeline with the instance ids that are missing from the Manager
removed from all three stage lists. -/
def presentOnly (pm : PluginManager) (p : Pipeline) : Pipeline :=
  { p with
    input_instances := p.input_instances.filter (fun i => (aget pm.instances i).isSome),
    processing_instances := p.processing_instances.filter (fun i => (aget pm.instances i).isSome),
    output_instances := p.output_instances.filter (fun i => (aget pm.instances i).isSome) }

/-- Manager states reachable from an empty instance/configuration table by any
sequence of `create_instance` and `remove_instance` calls. -/
inductive Reachable : PluginManager → Prop where
  | init : ∀ reg, Reachable ⟨reg, [], []⟩
  | create : ∀ pm pid iid cfg, Reachable pm →
      Reachable (create_instance pm pid iid cfg).1
  | remove : ∀ pm iid, Reachable pm → Reachable (remove_instance pm iid).1

/-- The configuration keys a stored instance's `health_check` indexes
directly; `initialize` established them for every instance it returned. -/
def instWF : PlugInstance → Bool
  | .http st => (aget st.config "port").isSome && (aget st.config "path").isSome
  | .webhook st => (aget st.config "url").isSome
  | _ => true

/-- The Manager invariant behind C10: both tables carry the same keys in the
same order, and every stored instance passed its `initialize`. -/
def ManagerInv (pm : PluginManager) : Prop :=
  pm.instances.map Prod.fst = pm.configurations.map Prod.fst ∧
  ∀ q ∈ pm.instances, instWF q.2 = true

/-! ## Association-list lemmas -/

theorem aget_cons {α : Type} (p : String × α) (l : List (String × α)) (k : String) :
    aget (p :: l) k = if p.1 = k then some p.2 else aget l k := by
  by_cases h : p.1 = k <;> simp [aget, List.find?, h]

theorem aget_isSome_iff_mem {α : Type} (l : List (String × α)) (k : String) :
    (aget l k).isSome = true ↔ k ∈ l.map Prod.fst := by
  induction l with
  | nil => simp [aget]
  | cons p rest ih =>
    rw [aget_cons]
    by_cases h : p.1 = k
    · subst h; simp
    · rw [if_neg h]
      simp only [List.map_cons, List.mem_cons]
      constructor
      · intro hs
        exact Or.inr (ih.mp hs)
      · rintro (hk | hm)
        · exact absurd hk.symm h
        · exact ih.mpr hm

theorem map_fst_replace {α : Type} (l : List (String × α)) (k : String) (v : α) :
    (l.map (fun p => if p.1 = k then (k, v) else p)).map Prod.fst = l.map Prod.fst := by
  induction l with
  | nil => rfl
  | cons p rest ih =>
    by_cases hp : p.1 = k
    · subst hp; simp [ih]
    · simp [hp, ih]

theorem aget_aset_self {α : Type} (l : List (String × α)) (k : String) (v : α) :
    aget (aset l k v) k = some v := by
  unfold aset
  by_cases h : (aget l k).isSome = true
  · rw [if_pos h]
    induction l with
    | nil => simp [aget] at h
    | cons p rest ih =>
      rw [aget_cons] at h
      by_cases hp : p.1 = k
      · subst hp
        simp [aget_cons]
      · rw [if_neg hp] at h
        simp only [List.map_cons, if_neg hp, aget_cons]
        exact ih h
  · rw [if_neg h]
    induction l with
    | nil => simp [aget_cons]
    | cons p rest ih =>
      rw [aget_cons] at h
      by_cases hp : p.1 = k
      · rw [if_pos hp] at h
        simp at h
      · rw [if_neg hp] at h
        rw [List.cons_append, aget_cons, if_neg hp]
        exact ih h

theorem aget_replace_isSome {α : Type} (l : List (String × α)) (k : String) (v : α)
    (j : String) :
    (aget (l.map (fun p => if p.1 = k then (k, v) else p)) j).isSome
      = (aget l j).isSome := by
  induction l with
  | nil => rfl
  | cons p rest ih =>
    simp only [List.map_cons]
    rw [aget_cons, aget_cons]
    by_cases hp : p.1 = k
    · subst hp
      by_cases hj : p.1 = j
      · simp [hj]
      · simp [hj, ih]
    · rw [if_neg hp]
      by_cases hj : p.1 = j
      · simp [hj]
      · simp [hj, ih]

theorem aget_aset_isSome {α : Type} (l : List (String × α)) (k : String) (v : α)
    (j : String) (hk : (aget l k).isSome = true) :
    (aget (aset l k v) j).isSome = (aget l j).isSome := by
  unfold aset
  rw [if_pos hk]
  exact aget_replace_isSome l k v j

theorem aset_keys_of_present {α : Type} (l : List (String × α)) (k : String) (v : α)
    (hk : (aget l k).isSome = true) :
    (aset l k v).map Prod.fst = l.map Prod.fst := by
  unfold aset
  rw [if_pos hk]
  exact map_fst_replace l k v

theorem aset_keys_of_absent {α : Type} (l : List (String × α)) (k : String) (v : α)
    (hk : ¬ (aget l k).isSome = true) :
    (aset l k v).map Prod.fst = l.map Prod.fst ++ [k] := by
  unfold aset
  rw [if_neg hk]
  simp

theorem adel_keys {α : Type} (l : List (String × α)) (k : String) :
    (adel l k).map Prod.fst = (l.map Prod.fst).filter (fun s => s ≠ k) := by
  induction l with
  | nil => rfl
  | cons p rest ih =>
    by_cases hp : p.1 = k
    · subst hp
      simp only [adel, List.filter_cons, ne_eq, decide_not] at ih ⊢
      simp [ih]
    · simp only [adel, List.filter_cons, ne_eq, decide_not] at ih ⊢
      simp [hp, ih]

theorem mem_aset {α : Type} (l : List (String × α)) (k : String) (v : α)
    (q : String × α) (hq : q ∈ aset l k v) : q = (k, v) ∨ q ∈ l := by
  unfold aset at hq
  by_cases h : (aget l k).isSome = true
  · rw [if_pos h] at hq
    obtain ⟨p, hp, he⟩ := List.mem_map.mp hq
    by_cases hpk : p.1 = k
    · left
      rw [← he, if_pos hpk]
    · right
      rw [← he, if_neg hpk]
      exact hp
  · rw [if_neg h] at hq
    rcases List.mem_append.mp hq with h1 | h1
    · exact Or.inr h1
    · left
      simpa using h1

/-! ## Claim theorems -/

/-- C1: the claim ("for every reference plugin, a config accepted by
`validate_config` makes `initialize` succeed") is violated by the code: for
the HTTP input plugin, the config `{"path": "/logs"}` is accepted by
`validate_config` (the missing `port` is defaulted to 8080 there) but
`initialize` then raises `KeyError` indexing `config['port']` directly. -/
theorem c1_http_accepted_config_makes_init_raise :
    httpValidateConfig [("path", Val.str "/logs")] = .ok (true, none) ∧
    httpInit [("path", Val.str "/logs")] = .error "KeyError" := by
  exact ⟨rfl, rfl⟩

theorem pyInt_asNum {v : Val} {n : Int} (h : pyInt v = some n) :
    asNum v = some (.i n) := by
  cases v <;> simp [pyInt] at h <;> simp [asNum, h]

/-- C9: a pipeline's name, enabled flag and the three instance-id lists
round-trip losslessly through `to_dict` / `from_dict`, and `from_dict`
defaults a missing enabled flag to `true` and each missing list to `[]`. -/
theorem c9_pipeline_serialization_roundtrip :
    (∀ p : Pipeline, Pipeline.from_dict (Pipeline.to_dict p) = p) ∧
    (∀ n i pr o, (Pipeline.from_dict ⟨n, none, i, pr, o⟩).enabled = true) ∧
    (∀ n e pr o, (Pipeline.from_dict ⟨n, e, none, pr, o⟩).input_instances = []) ∧
    (∀ n e i o, (Pipeline.from_dict ⟨n, e, i, none, o⟩).processing_instances = []) ∧
    (∀ n e i pr, (Pipeline.from_dict ⟨n, e, i, pr, none⟩).output_instances = []) := by
  refine ⟨fun p => ?_, fun _ _ _ _ => rfl, fun _ _ _ _ => rfl,
          fun _ _ _ _ => rfl, fun _ _ _ _ => rfl⟩
  cases p
  rfl


/-- C5: for an initialized HTTP input plugin (numeric `batch_size` of at
least 1, as every validated config has), `collect()` returns the empty list
exactly while the buffered event count is below `batch_size`; once the
threshold is reached it returns the whole buffer in arrival order and clears
it, so no event is delivered by two `collect` calls. -/
theorem c5_collect_drains_at_threshold (st : HTTPState) (b : Int)
    (hb : pyInt (dgetD st.config "batch_size" (.int 100)) = some b)
    (h1 : 1 ≤ b) :
    ∃ st1 evs, httpCollect st = .ok (st1, evs) ∧
      (evs = [] ↔ (st.buffer.length : Int) < b) ∧
      ((st.buffer.length : Int) < b → st1 = st ∧ evs = []) ∧
      (b ≤ (st.buffer.length : Int) →
        evs = st.buffer ∧ st1 = { st with buffer := [] }) := by
  unfold httpCollect
  rw [pyInt_asNum hb]
  dsimp only
  by_cases hlt : (st.buffer.length : Int) < b
  · rw [if_pos (show intLtNum (st.buffer.length : Int) (.i b) = true by
      simp [intLtNum, hlt])]
    refine ⟨st, [], rfl, ⟨fun _ => hlt, fun _ => rfl⟩, fun _ => ⟨rfl, rfl⟩, fun hge => ?_⟩
    omega
  · rw [if_neg (show ¬ intLtNum (st.buffer.length : Int) (.i b) = true by
      simp [intLtNum, hlt])]
    refine ⟨{ st with buffer := [] }, st.buffer, rfl, ⟨fun he => ?_, fun h => absurd h hlt⟩,
           fun h => absurd h hlt, fun _ => ⟨rfl, rfl⟩⟩
    rw [he] at hlt
    simp at hlt
    omega

/-- C5 witness: a buffer of two events with `batch_size` 2 drains completely. -/
theorem c5_witness :
    ∃ st1 evs,
      httpCollect ⟨[("batch_size", Val.int 2)],
                   [[("x", Val.int 1)], [("x", Val.int 2)]], 2⟩ = .ok (st1, evs) ∧
      (evs = [] ↔ (([[("x", Val.int 1)], [("x", Val.int 2)]] : List Dict).length : Int) < 2) ∧
      ((([[("x", Val.int 1)], [("x", Val.int 2)]] : List Dict).length : Int) < 2 →
        st1 = ⟨[("batch_size", Val.int 2)], [[("x", Val.int 1)], [("x", Val.int 2)]], 2⟩ ∧ evs = []) ∧
      ((2 : Int) ≤ (([[("x", Val.int 1)], [("x", Val.int 2)]] : List Dict).length : Int) →
        evs = [[("x", Val.int 1)], [("x", Val.int 2)]] ∧
        st1 = ⟨[("batch_size", Val.int 2)], [], 2⟩) :=
  c5_collect_drains_at_threshold
    ⟨[("batch_size", Val.int 2)], [[("x", Val.int 1)], [("x", Val.int 2)]], 2⟩ 2
    (by rfl) (by norm_num)

theorem jpHealth_status_eq (c : Dict) (s f : Nat) :
    (jpHealthCheck ⟨c, s, f⟩).status =
      (if 1000 < f then "unhealthy"
       else if (s : ℚ) * 100 / ((s : ℚ) + (f : ℚ)) < 50 then "degraded"
       else "healthy") := by
  have hcast : (((s + f : Nat)) : ℚ) = (s : ℚ) + (f : ℚ) := by push_cast; ring
  have key : ((if s + f > 0 then (s : ℚ) / (((s + f : Nat)) : ℚ) * 100 else 0) < 50)
      ↔ ((s : ℚ) * 100 / ((s : ℚ) + (f : ℚ)) < 50) := by
    by_cases h0 : s + f = 0
    · have hs : s = 0 := by omega
      have hf : f = 0 := by omega
      subst hs; subst hf
      norm_num
    · have hpos : s + f > 0 := Nat.pos_of_ne_zero h0
      rw [if_pos hpos, div_mul_eq_mul_div, hcast]
  simp only [jpHealthCheck]
  by_cases h1 : 1000 < f
  · rw [if_pos h1, if_pos h1]
  · rw [if_neg h1, if_neg h1]
    by_cases h2 : (if s + f > 0 then (s : ℚ) / (((s + f : Nat)) : ℚ) * 100 else 0) < 50
    · rw [if_pos h2, if_pos (key.mp h2)]
    · rw [if_neg h2, if_neg (fun hc => h2 (key.mpr hc))]

/-- C8: for every counter state of the JSON parser plugin, `health_check`
reports "unhealthy" once the failure count exceeds 1000, otherwise "degraded"
when the lifetime success rate `successes*100/(successes+failures)` is below
50 (the code's 0-rate at zero totals agrees with the rational convention
`0/0 = 0`), otherwise "healthy"; the metrics carry the exact counters. -/
theorem c8_health_thresholds (c : Dict) (s f : Nat) :
    (1000 < f → (jpHealthCheck ⟨c, s, f⟩).status = "unhealthy") ∧
    (f ≤ 1000 → (s : ℚ) * 100 / ((s : ℚ) + (f : ℚ)) < 50 →
      (jpHealthCheck ⟨c, s, f⟩).status = "degraded") ∧
    (f ≤ 1000 → ¬ ((s : ℚ) * 100 / ((s : ℚ) + (f : ℚ)) < 50) →
      (jpHealthCheck ⟨c, s, f⟩).status = "healthy") ∧
    (jpHealthCheck ⟨c, s, f⟩).parse_success = s ∧
    (jpHealthCheck ⟨c, s, f⟩).parse_errors = f := by
  refine ⟨?_, ?_, ?_, rfl, rfl⟩ <;> rw [jpHealth_status_eq]
  · intro h
    rw [if_pos h]
  · intro h hrate
    rw [if_neg (by omega), if_pos hrate]
  · intro h hrate
    rw [if_neg (by omega), if_neg hrate]

/-- C8 witness: the three statuses at concrete counter values. -/
theorem c8_witness :
    (jpHealthCheck ⟨[], 0, 1001⟩).status = "unhealthy" ∧
    (jpHealthCheck ⟨[], 0, 3⟩).status = "degraded" ∧
    (jpHealthCheck ⟨[], 3, 1⟩).status = "healthy" :=
  ⟨(c8_health_thresholds [] 0 1001).1 (by norm_num),
   (c8_health_thresholds [] 0 3).2.1 (by norm_num) (by norm_num),
   (c8_health_thresholds [] 3 1).2.2.1 (by norm_num) (by norm_num)⟩


theorem isVstr_str_ne {v : Val} {a b : String} (h : isVstr v a = true) (hne : a ≠ b) :
    isVstr v b = false := by
  cases v with
  | str t =>
    simp only [isVstr, decide_eq_true_eq] at h
    subst h
    simp [isVstr, hne]
  | null => rfl
  | bool x => rfl
  | int x => rfl
  | float m e => rfl
  | nan => rfl
  | inf p => rfl
  | arr x => rfl
  | dict x => rfl

theorem jpHandleError_cases (config event : Dict) (msg : String) :
    (isVstr (dgetD config "on_error" (.str "keep")) "drop" = true →
      jpHandleError config event msg = none) ∧
    (isVstr (dgetD config "on_error" (.str "keep")) "mark" = true →
      jpHandleError config event msg =
        some (aset (aset event "_parse_error" (.str msg)) "_parser" (.str "json_parser"))) ∧
    (isVstr (dgetD config "on_error" (.str "keep")) "drop" = false →
     isVstr (dgetD config "on_error" (.str "keep")) "mark" = false →
      jpHandleError config event msg = some event) := by
  unfold jpHandleError
  refine ⟨fun h => ?_, fun h => ?_, fun h1 h2 => ?_⟩
  · rw [if_pos h]
  · rw [if_neg (by simp [isVstr_str_ne (b := "drop") h (by decide)]), if_pos h]
  · rw [if_neg (by simp [h1]), if_neg (by simp [h2])]

/-- C3 counterexample: with `on_error="mark"` and a wrong-typed source value
(the integer 5), `process` dispatches to the mark policy but leaves
`parse_errors` at 0 — the claim says the failure counter is incremented by
one on every parse failure. -/
theorem c3_counterexample_no_increment_on_type_failure :
    jpProcess ⟨[("source_field", Val.str "m"), ("on_error", Val.str "mark")], 0, 0⟩
        [("m", Val.int 5)]
      = .ok (⟨[("source_field", Val.str "m"), ("on_error", Val.str "mark")], 0, 0⟩,
             some [("m", Val.int 5), ("_parse_error", Val.str "Not valid JSON"),
                   ("_parser", Val.str "json_parser")]) := by
  exact rfl

/-- C3 (amended): on a parse failure — a string source value that is not valid
JSON, or a source value that is neither a string nor a mapping — `process`
dispatches to the configured error policy (`drop` returns absent, `mark`
attaches an error message and the parser-identifier tag and keeps the event,
`keep` returns the original event untouched); the failure counter is
incremented by one in the invalid-JSON-string case and left unchanged in the
wrong-typed-value case. -/
theorem c3_amended_error_policy_dispatch (st : JPState) (event : Dict) (sf : String) (sv : Val)
    (hsf : aget st.config "source_field" = some (.str sf))
    (hv : aget event sf = some sv)
    (hfail : (∃ s, sv = Val.str s ∧ loads s = none) ∨
             (isStrV sv = false ∧ isDictV sv = false)) :
    ∃ st1 res, jpProcess st event = .ok (st1, res) ∧
      st1.config = st.config ∧
      st1.parse_success = st.parse_success ∧
      (isStrV sv = true → st1.parse_errors = st.parse_errors + 1) ∧
      (isStrV sv = false → st1.parse_errors = st.parse_errors) ∧
      (isVstr (dgetD st.config "on_error" (.str "keep")) "drop" = true → res = none) ∧
      (isVstr (dgetD st.config "on_error" (.str "keep")) "mark" = true →
        ∃ msg, res = some (aset (aset event "_parse_error" (.str msg)) "_parser"
                             (.str "json_parser"))) ∧
      (isVstr (dgetD st.config "on_error" (.str "keep")) "drop" = false →
       isVstr (dgetD st.config "on_error" (.str "keep")) "mark" = false →
        res = some event) := by
  obtain ⟨hdrop, hmark, hkeep⟩ := jpHandleError_cases st.config event "JSONDecodeError"
  obtain ⟨hdrop2, hmark2, hkeep2⟩ := jpHandleError_cases st.config event "Not valid JSON"
  rcases hfail with ⟨s, rfl, hl⟩ | ⟨hns, hnd⟩
  · refine ⟨{ st with parse_errors := st.parse_errors + 1 },
            jpHandleError st.config event "JSONDecodeError", ?_, rfl, rfl,
            fun _ => rfl, fun hns => by simp [isStrV] at hns,
            hdrop, fun h => ⟨"JSONDecodeError", hmark h⟩, hkeep⟩
    simp only [jpProcess, hsf, hv, hl]
  · cases sv with
    | str s => simp [isStrV] at hns
    | dict d => simp [isDictV] at hnd
    | null =>
      refine ⟨st, jpHandleError st.config event "Not valid JSON", ?_, rfl, rfl,
              fun h => by simp [isStrV] at h, fun _ => rfl,
              hdrop2, fun h => ⟨"Not valid JSON", hmark2 h⟩, hkeep2⟩
      simp only [jpProcess, hsf, hv]
    | bool b =>
      refine ⟨st, jpHandleError st.config event "Not valid JSON", ?_, rfl, rfl,
              fun h => by simp [isStrV] at h, fun _ => rfl,
              hdrop2, fun h => ⟨"Not valid JSON", hmark2 h⟩, hkeep2⟩
      simp only [jpProcess, hsf, hv]
    | int n =>
      refine ⟨st, jpHandleError st.config event "Not valid JSON", ?_, rfl, rfl,
              fun h => by simp [isStrV] at h, fun _ => rfl,
              hdrop2, fun h => ⟨"Not valid JSON", hmark2 h⟩, hkeep2⟩
      simp only [jpProcess, hsf, hv]
    | float m e =>
      refine ⟨st, jpHandleError st.config event "Not valid JSON", ?_, rfl, rfl,
              fun h => by simp [isStrV] at h, fun _ => rfl,
              hdrop2, fun h => ⟨"Not valid JSON", hmark2 h⟩, hkeep2⟩
      simp only [jpProcess, hsf, hv]
    | nan =>
      refine ⟨st, jpHandleError st.config event "Not valid JSON", ?_, rfl, rfl,
              fun h => by simp [isStrV] at h, fun _ => rfl,
              hdrop2, fun h => ⟨"Not valid JSON", hmark2 h⟩, hkeep2⟩
      simp only [jpProcess, hsf, hv]
    | inf p =>
      refine ⟨st, jpHandleError st.config event "Not valid JSON", ?_, rfl, rfl,
              fun h => by simp [isStrV] at h, fun _ => rfl,
              hdrop2, fun h => ⟨"Not valid JSON", hmark2 h⟩, hkeep2⟩
      simp only [jpProcess, hsf, hv]
    | arr l =>
      refine ⟨st, jpHandleError st.config event "Not valid JSON", ?_, rfl, rfl,
              fun h => by simp [isStrV] at h, fun _ => rfl,
              hdrop2, fun h => ⟨"Not valid JSON", hmark2 h⟩, hkeep2⟩
      simp only [jpProcess, hsf, hv]

/-- C3 witness: the amended theorem at a concrete invalid-JSON event under the
drop policy. -/
theorem c3_amended_witness :
    ∃ st1 res,
      jpProcess ⟨[("source_field", Val.str "m"), ("on_error", Val.str "drop")], 0, 0⟩
          [("m", Val.str "not json")] = .ok (st1, res) ∧
      st1.config = [("source_field", Val.str "m"), ("on_error", Val.str "drop")] ∧
      st1.parse_success = 0 ∧
      (isStrV (Val.str "not json") = true → st1.parse_errors = 0 + 1) ∧
      (isStrV (Val.str "not json") = false → st1.parse_errors = 0) ∧
      (isVstr (dgetD [("source_field", Val.str "m"), ("on_error", Val.str "drop")]
          "on_error" (.str "keep")) "drop" = true → res = none) ∧
      (isVstr (dgetD [("source_field", Val.str "m"), ("on_error", Val.str "drop")]
          "on_error" (.str "keep")) "mark" = true →
        ∃ msg, res = some (aset (aset [("m", Val.str "not json")] "_parse_error"
            (.str msg)) "_parser" (.str "json_parser"))) ∧
      (isVstr (dgetD [("source_field", Val.str "m"), ("on_error", Val.str "drop")]
          "on_error" (.str "keep")) "drop" = false →
       isVstr (dgetD [("source_field", Val.str "m"), ("on_error", Val.str "drop")]
          "on_error" (.str "keep")) "mark" = false →
        res = some [("m", Val.str "not json")]) :=
  c3_amended_error_policy_dispatch
    ⟨[("source_field", Val.str "m"), ("on_error", Val.str "drop")], 0, 0⟩
    [("m", Val.str "not json")] "m" (Val.str "not json")
    (by rfl) (by rfl) (Or.inl ⟨"not json", rfl, by rfl⟩)

theorem jpFinish_dict (st : JPState) (event : Dict) (sf t : String) (d : Dict)
    (ht : dgetD st.config "target_field" (.str "") = .str t) :
    jpFinish st event sf (.str t) (.dict d) =
      .ok ({ st with parse_success := st.parse_success + 1 },
           some (jsonSpecResult st.config event sf d)) := by
  unfold jpFinish jsonSpecResult
  rw [ht]
  by_cases hf : truthy (dgetD st.config "flatten" (.bool false)) <;>
  by_cases hp : truthy (dgetD st.config "prefix" (.str "")) <;>
  by_cases htf : truthy (Val.str t) <;>
  by_cases hk : truthy (dgetD st.config "keep_original" (.bool true)) <;>
    simp [hf, hp, htf, hk]

/-- C4 counterexample: the claim quantifies over "every event whose source
value parses successfully", but a successfully parsed non-mapping breaks it:
on `{"message": "5"}` with config `{"source_field": "message"}` the code
reaches `event.update(5)` and raises `TypeError` instead of producing the
merged event. -/
theorem c4_counterexample_nonmapping_parse_raises :
    jpProcess ⟨[("source_field", Val.str "message")], 0, 0⟩ [("message", Val.str "5")]
      = .error "TypeError" := by
  exact rfl

/-- C4 (amended): for every event whose source value parses successfully to a
mapping (a JSON-object string, or an already-structured mapping value),
`process` returns the event obtained by: flattening to dot-joined keys when
`flatten` is set, prefixing every key when `prefix` is set, merging into the
top level when no target field is configured (storing under it otherwise),
and deleting the source field exactly when `keep_original` is false — as
captured by `jsonSpecResult`, with the success counter incremented; in
particular the spec's concrete round-trip holds. -/
theorem c4_amended_parse_success_path :
    (∀ (st : JPState) (event : Dict) (sf : String) (sv : Val) (d : Dict) (t : String),
      aget st.config "source_field" = some (.str sf) →
      aget event sf = some sv →
      ((∃ s, sv = Val.str s ∧ loads s = some (.dict d)) ∨ sv = .dict d) →
      dgetD st.config "target_field" (.str "") = .str t →
      jpProcess st event =
        .ok ({ st with parse_success := st.parse_success + 1 },
             some (jsonSpecResult st.config event sf d))) ∧
    jpProcess ⟨[("source_field", Val.str "message")], 0, 0⟩
        [("message", Val.str "\x7b\"a\":1\x7d")]
      = .ok (⟨[("source_field", Val.str "message")], 1, 0⟩,
             some [("message", Val.str "\x7b\"a\":1\x7d"), ("a", Val.int 1)]) ∧
    aget [("message", Val.str "\x7b\"a\":1\x7d"), ("a", Val.int 1)] "a"
      = some (Val.int 1) ∧
    aget [("message", Val.str "\x7b\"a\":1\x7d"), ("a", Val.int 1)] "message"
      = some (Val.str "\x7b\"a\":1\x7d") := by
  refine ⟨?_, by rfl, by rfl, by rfl⟩
  intro st event sf sv d t hsf hv hparse ht
  rcases hparse with ⟨s, rfl, hl⟩ | rfl
  · simp only [jpProcess, hsf, hv, hl]
    rw [ht]
    exact jpFinish_dict st event sf t d ht
  · simp only [jpProcess, hsf, hv]
    rw [ht]
    exact jpFinish_dict st event sf t d ht

/-- C4 witness: the amended theorem at a concrete JSON-object event. -/
theorem c4_amended_witness :
    jpProcess ⟨[("source_field", Val.str "m")], 0, 0⟩ [("m", Val.str "\x7b\"b\":2\x7d")]
      = .ok (⟨[("source_field", Val.str "m")], 0 + 1, 0⟩,
             some (jsonSpecResult [("source_field", Val.str "m")]
               [("m", Val.str "\x7b\"b\":2\x7d")] "m" [("b", Val.int 2)])) :=
  c4_amended_parse_success_path.1
    ⟨[("source_field", Val.str "m")], 0, 0⟩ [("m", Val.str "\x7b\"b\":2\x7d")]
    "m" (Val.str "\x7b\"b\":2\x7d") [("b", Val.int 2)] ""
    (by rfl) (by rfl) (Or.inl ⟨"\x7b\"b\":2\x7d", rfl, by rfl⟩) (by rfl)


/-- C7: `create_instance` never propagates an exception (it is a total
function of the model): an unknown type id yields the not-found error, a
rejected config yields the validator's error, an exception inside
`validate_config` or `initialize` yields that exception rendered as a string
— each failure leaving both Manager tables untouched — and on success the
instance and its configuration are stored under the instance id, overwriting
any prior entry. -/
theorem c7_create_instance_contract (pm : PluginManager) (pid iid : String) (cfg : Dict) :
    (aget pm.registry pid = none →
      create_instance pm pid iid cfg = (pm, false, some ("Plugin " ++ pid ++ " not found"))) ∧
    (∀ cls, aget pm.registry pid = some cls →
      (∀ e, classValidate cls cfg = .error e →
        create_instance pm pid iid cfg = (pm, false, some e)) ∧
      (∀ err, classValidate cls cfg = .ok (false, err) →
        create_instance pm pid iid cfg = (pm, false, err)) ∧
      (∀ m e, classValidate cls cfg = .ok (true, m) → classInit cls cfg = .error e →
        create_instance pm pid iid cfg = (pm, false, some e)) ∧
      (∀ m inst, classValidate cls cfg = .ok (true, m) → classInit cls cfg = .ok inst →
        create_instance pm pid iid cfg =
          ({ pm with instances := aset pm.instances iid inst,
                     configurations := aset pm.configurations iid cfg }, true, none) ∧
        aget (aset pm.instances iid inst) iid = some inst ∧
        aget (aset pm.configurations iid cfg) iid = some cfg)) := by
  constructor
  · intro h
    simp only [create_instance, h]
  · intro cls hcls
    refine ⟨fun e he => ?_, fun err herr => ?_, fun m e hm he => ?_, fun m inst hm hi => ?_⟩
    · simp only [create_instance, hcls, he]
    · simp only [create_instance, hcls, herr]
    · simp only [create_instance, hcls, hm, he]
    · refine ⟨?_, aget_aset_self pm.instances iid inst, aget_aset_self pm.configurations iid cfg⟩
      simp only [create_instance, hcls, hm, hi]

/-- C7 witness: the success branch at a concrete registry, id and config. -/
theorem c7_witness :
    create_instance ⟨defaultRegistry, [], []⟩ "processing:JSON Parser" "j1"
        [("source_field", Val.str "m")] =
      ({ (⟨defaultRegistry, [], []⟩ : PluginManager) with
          instances := aset [] "j1" (.jsonp (jpInit [("source_field", Val.str "m")])),
          configurations := aset [] "j1" [("source_field", Val.str "m")] },
       true, none) ∧
    aget (aset ([] : List (String × PlugInstance)) "j1"
        (.jsonp (jpInit [("source_field", Val.str "m")]))) "j1"
      = some (.jsonp (jpInit [("source_field", Val.str "m")])) ∧
    aget (aset ([] : List (String × Dict)) "j1" [("source_field", Val.str "m")]) "j1"
      = some [("source_field", Val.str "m")] :=
  ((c7_create_instance_contract ⟨defaultRegistry, [], []⟩ "processing:JSON Parser" "j1"
      [("source_field", Val.str "m")]).2 PluginClass.jsonC (by rfl)).2.2.2
    none (.jsonp (jpInit [("source_field", Val.str "m")])) (by rfl) (by rfl)


theorem collectPhase_filter (D : String → Bool) :
    ∀ (ids : List String) (pm : PluginManager) (stats : PipelineStats) (acc : List Dict),
      (∀ j, (aget pm.instances j).isSome = D j) →
      collectPhase pm stats acc ids = collectPhase pm stats acc (ids.filter D) := by
  intro ids
  induction ids with
  | nil => intro pm stats acc _; rfl
  | cons i rest ih =>
    intro pm stats acc hD
    by_cases hi : D i = true
    · have hsome : (aget pm.instances i).isSome = true := by rw [hD]; exact hi
      obtain ⟨inst, hinst⟩ := Option.isSome_iff_exists.mp hsome
      rw [List.filter_cons_of_pos hi]
      simp only [collectPhase, hinst]
      cases hc : instCollect inst with
      | error e => rfl
      | ok q =>
        obtain ⟨inst1, evs⟩ := q
        exact ih _ _ _ (fun j => by
          rw [← hD j]
          exact aget_aset_isSome pm.instances i inst1 j hsome)
    · simp only [Bool.not_eq_true] at hi
      have hn : aget pm.instances i = none := by
        cases hq : aget pm.instances i with
        | none => rfl
        | some v =>
          have := hD i
          rw [hq, hi] at this
          cases this
      rw [List.filter_cons_of_neg (by simp [hi])]
      simp only [collectPhase, hn]
      exact ih _ _ _ hD

theorem collectPhase_dom (D : String → Bool) :
    ∀ (ids : List String) (pm : PluginManager) (stats : PipelineStats) (acc : List Dict)
      (pm1 : PluginManager) (stats1 : PipelineStats) (evs : List Dict),
      (∀ j, (aget pm.instances j).isSome = D j) →
      collectPhase pm stats acc ids = .ok (pm1, stats1, evs) →
      ∀ j, (aget pm1.instances j).isSome = D j := by
  intro ids
  induction ids with
  | nil =>
    intro pm stats acc pm1 stats1 evs hD heq
    simp only [collectPhase, Except.ok.injEq, Prod.mk.injEq] at heq
    obtain ⟨h1, _, _⟩ := heq
    subst h1
    exact hD
  | cons i rest ih =>
    intro pm stats acc pm1 stats1 evs hD heq
    cases hn : aget pm.instances i with
    | none =>
      simp only [collectPhase, hn] at heq
      exact ih _ _ _ _ _ _ hD heq
    | some inst =>
      simp only [collectPhase, hn] at heq
      cases hc : instCollect inst with
      | error e =>
        rw [hc] at heq
        simp at heq
      | ok q =>
        obtain ⟨inst1, evs0⟩ := q
        rw [hc] at heq
        have hsome : (aget pm.instances i).isSome = true := by rw [hn]; rfl
        exact ih _ _ _ _ _ _ (fun j => by
          rw [← hD j]
          exact aget_aset_isSome pm.instances i inst1 j hsome) heq

theorem processPhase_filter (D : String → Bool) :
    ∀ (ids : List String) (pm : PluginManager) (stats : PipelineStats) (events : List Dict),
      (∀ j, (aget pm.instances j).isSome = D j) →
      processPhase pm stats events ids = processPhase pm stats events (ids.filter D) := by
  intro ids
  induction ids with
  | nil => intro pm stats events _; rfl
  | cons i rest ih =>
    intro pm stats events hD
    by_cases hi : D i = true
    · have hsome : (aget pm.instances i).isSome = true := by rw [hD]; exact hi
      obtain ⟨inst, hinst⟩ := Option.isSome_iff_exists.mp hsome
      rw [List.filter_cons_of_pos hi]
      simp only [processPhase, hinst]
      cases hc : instProcessBatch inst events with
      | error q => rfl
      | ok q =>
        obtain ⟨inst1, out⟩ := q
        exact ih _ _ _ (fun j => by
          rw [← hD j]
          exact aget_aset_isSome pm.instances i inst1 j hsome)
    · simp only [Bool.not_eq_true] at hi
      have hn : aget pm.instances i = none := by
        cases hq : aget pm.instances i with
        | none => rfl
        | some v =>
          have := hD i
          rw [hq, hi] at this
          cases this
      rw [List.filter_cons_of_neg (by simp [hi])]
      simp only [processPhase, hn]
      exact ih _ _ _ hD

theorem processPhase_dom (D : String → Bool) :
    ∀ (ids : List String) (pm : PluginManager) (stats : PipelineStats) (events : List Dict)
      (pm1 : PluginManager) (stats1 : PipelineStats) (out : List Dict),
      (∀ j, (aget pm.instances j).isSome = D j) →
      processPhase pm stats events ids = .ok (pm1, stats1, out) →
      ∀ j, (aget pm1.instances j).isSome = D j := by
  intro ids
  induction ids with
  | nil =>
    intro pm stats events pm1 stats1 out hD heq
    simp only [processPhase, Except.ok.injEq, Prod.mk.injEq] at heq
    obtain ⟨h1, _, _⟩ := heq
    subst h1
    exact hD
  | cons i rest ih =>
    intro pm stats events pm1 stats1 out hD heq
    cases hn : aget pm.instances i with
    | none =>
      simp only [processPhase, hn] at heq
      exact ih _ _ _ _ _ _ hD heq
    | some inst =>
      simp only [processPhase, hn] at heq
      cases hc : instProcessBatch inst events with
      | error q =>
        rw [hc] at heq
        simp at heq
      | ok q =>
        obtain ⟨inst1, out0⟩ := q
        rw [hc] at heq
        have hsome : (aget pm.instances i).isSome = true := by rw [hn]; rfl
        exact ih _ _ _ _ _ _ (fun j => by
          rw [← hD j]
          exact aget_aset_isSome pm.instances i inst1 j hsome) heq

theorem sendPhase_filter (D : String → Bool) :
    ∀ (ids : List String) (pm : PluginManager) (stats : PipelineStats) (events : List Dict),
      (∀ j, (aget pm.instances j).isSome = D j) →
      sendPhase pm stats events ids = sendPhase pm stats events (ids.filter D) := by
  intro ids
  induction ids with
  | nil => intro pm stats events _; rfl
  | cons i rest ih =>
    intro pm stats events hD
    by_cases hi : D i = true
    · have hsome : (aget pm.instances i).isSome = true := by rw [hD]; exact hi
      obtain ⟨inst, hinst⟩ := Option.isSome_iff_exists.mp hsome
      rw [List.filter_cons_of_pos hi]
      simp only [sendPhase, hinst]
      cases hc : instSendBatch inst events with
      | error q => rfl
      | ok q =>
        obtain ⟨inst1, r⟩ := q
        exact ih _ _ _ (fun j => by
          rw [← hD j]
          exact aget_aset_isSome pm.instances i inst1 j hsome)
    · simp only [Bool.not_eq_true] at hi
      have hn : aget pm.instances i = none := by
        cases hq : aget pm.instances i with
        | none => rfl
        | some v =>
          have := hD i
          rw [hq, hi] at this
          cases this
      rw [List.filter_cons_of_neg (by simp [hi])]
      simp only [sendPhase, hn]
      exact ih _ _ _ hD

/-- C6: a pipeline with instance ids that are missing from the Manager
executes exactly as the pipeline with those ids removed from all three stage
lists — each missing id is skipped without an exception and without an error
entry, every present instance still runs in list order, and the returned
statistics record exactly the present instances' contributions. -/
theorem c6_missing_ids_skipped (pm : PluginManager) (p : Pipeline) :
    p.execute pm = (presentOnly pm p).execute pm := by
  have hD : ∀ j, (aget pm.instances j).isSome
      = (fun i => (aget pm.instances i).isSome) j := fun _ => rfl
  unfold Pipeline.execute
  simp only [presentOnly]
  by_cases he : p.enabled = true
  · rw [if_neg (by simp [he]), if_neg (by simp [he])]
    rw [← collectPhase_filter _ p.input_instances pm ⟨0, 0, 0, []⟩ [] hD]
    cases hc : collectPhase pm ⟨0, 0, 0, []⟩ [] p.input_instances with
    | error q => rfl
    | ok tr =>
      obtain ⟨pm1, st1, evs⟩ := tr
      dsimp only
      have hD1 : ∀ j, (aget pm1.instances j).isSome
          = (fun i => (aget pm.instances i).isSome) j :=
        collectPhase_dom _ p.input_instances pm _ _ pm1 st1 evs hD hc
      rw [← processPhase_filter _ p.processing_instances pm1 st1 evs hD1]
      cases hp2 : processPhase pm1 st1 evs p.processing_instances with
      | error q => rfl
      | ok tr2 =>
        obtain ⟨pm2, st2, out⟩ := tr2
        dsimp only
        have hD2 : ∀ j, (aget pm2.instances j).isSome
            = (fun i => (aget pm.instances i).isSome) j :=
          processPhase_dom _ p.processing_instances pm1 st1 evs pm2 st2 out hD1 hp2
        rw [← sendPhase_filter _ p.output_instances pm2
              { st2 with events_processed := out.length } out hD2]
  · rw [if_pos (by simp [he]), if_pos (by simp [he])]


theorem classInit_wf (cls : PluginClass) (cfg : Dict) (inst : PlugInstance)
    (h : classInit cls cfg = .ok inst) : instWF inst = true := by
  cases cls with
  | httpC =>
    simp only [classInit, httpInit] at h
    by_cases hc : ((aget cfg "port").isSome = true ∧ (aget cfg "path").isSome = true)
    · rw [if_pos hc] at h
      simp only [Except.map] at h
      injection h with h
      subst h
      simp [instWF, hc.1, hc.2]
    · rw [if_neg hc] at h
      simp [Except.map] at h
  | jsonC =>
    simp only [classInit] at h
    injection h with h
    subst h
    rfl
  | webhookC =>
    simp only [classInit, webhookInit] at h
    by_cases hc : (aget cfg "url").isSome = true
    · rw [if_pos hc] at h
      simp only [Except.map] at h
      injection h with h
      subst h
      simp [instWF, hc]
    · rw [if_neg hc] at h
      simp [Except.map] at h
  | slackC =>
    simp only [classInit, slackInit, Except.map] at h
    injection h with h
    subst h
    rfl

theorem instWF_health (inst : PlugInstance) (h : instWF inst = true) :
    (instHealthStatus inst).isOk = true := by
  cases inst with
  | http st =>
    simp only [instWF, Bool.and_eq_true] at h
    simp [instHealthStatus, httpHealthStatus, h.1, h.2, Except.isOk, Except.toBool]
  | jsonp st => rfl
  | webhook st =>
    simp only [instWF] at h
    simp [instHealthStatus, webhookHealthStatus, h, Except.isOk, Except.toBool]
  | slack st => rfl

theorem listAux_isOk (configs : List (String × Dict)) :
    ∀ (insts : List (String × PlugInstance)),
      (∀ iid, iid ∈ insts.map Prod.fst → (aget configs iid).isSome = true) →
      (∀ q ∈ insts, instWF q.2 = true) →
      (listInstancesAux configs insts).isOk = true := by
  intro insts
  induction insts with
  | nil => intro _ _; rfl
  | cons q rest ih =>
    intro hkeys hwf
    obtain ⟨iid, inst⟩ := q
    have hh := instWF_health inst (hwf (iid, inst) (List.mem_cons_self _ _))
    have hcfg : (aget configs iid).isSome = true := hkeys iid (by simp)
    obtain ⟨cfg, hcfg2⟩ := Option.isSome_iff_exists.mp hcfg
    cases hh2 : instHealthStatus inst with
    | error e =>
      rw [hh2] at hh
      simp [Except.isOk, Except.toBool] at hh
    | ok s =>
      simp only [listInstancesAux, hh2, hcfg2]
      have hrec := ih (fun j hj => hkeys j (by simp [hj]))
        (fun r hr => hwf r (List.mem_cons_of_mem _ hr))
      cases hrest : listInstancesAux configs rest with
      | error e =>
        rw [hrest] at hrec
        simp [Except.isOk, Except.toBool] at hrec
      | ok rows => rfl

theorem managerInv_create (pm : PluginManager) (pid iid : String) (cfg : Dict)
    (h : ManagerInv pm) : ManagerInv (create_instance pm pid iid cfg).1 := by
  obtain ⟨hkeys, hwf⟩ := h
  unfold create_instance
  cases h1 : aget pm.registry pid with
  | none => exact ⟨hkeys, hwf⟩
  | some cls =>
    dsimp only
    cases h2 : classValidate cls cfg with
    | error e => exact ⟨hkeys, hwf⟩
    | ok pr =>
      obtain ⟨b, err⟩ := pr
      cases b with
      | false => exact ⟨hkeys, hwf⟩
      | true =>
        dsimp only
        cases h3 : classInit cls cfg with
        | error e => exact ⟨hkeys, hwf⟩
        | ok inst =>
          dsimp only
          refine ⟨?_, ?_⟩
          · show (aset pm.instances iid inst).map Prod.fst
              = (aset pm.configurations iid cfg).map Prod.fst
            by_cases hiid : (aget pm.instances iid).isSome = true
            · have hc : (aget pm.configurations iid).isSome = true := by
                rw [aget_isSome_iff_mem] at hiid ⊢
                rw [← hkeys]
                exact hiid
              rw [aset_keys_of_present _ _ _ hiid, aset_keys_of_present _ _ _ hc]
              exact hkeys
            · have hc : ¬ (aget pm.configurations iid).isSome = true := by
                rw [aget_isSome_iff_mem] at hiid ⊢
                rw [← hkeys]
                exact hiid
              rw [aset_keys_of_absent _ _ _ hiid, aset_keys_of_absent _ _ _ hc, hkeys]
          · show ∀ q ∈ aset pm.instances iid inst, instWF q.2 = true
            intro q hq
            rcases mem_aset _ _ _ _ hq with rfl | hq2
            · exact classInit_wf cls cfg inst h3
            · exact hwf q hq2

theorem managerInv_remove (pm : PluginManager) (iid : String)
    (h : ManagerInv pm) : ManagerInv (remove_instance pm iid).1 := by
  obtain ⟨hkeys, hwf⟩ := h
  unfold remove_instance
  by_cases h1 : (aget pm.instances iid).isSome = true
  · have h2 : (aget pm.configurations iid).isSome = true := by
      rw [aget_isSome_iff_mem] at h1 ⊢
      rw [← hkeys]
      exact h1
    rw [if_pos h1, if_pos h2]
    refine ⟨?_, ?_⟩
    · show (adel pm.instances iid).map Prod.fst = (adel pm.configurations iid).map Prod.fst
      rw [adel_keys, adel_keys, hkeys]
    · show ∀ q ∈ adel pm.instances iid, instWF q.2 = true
      intro q hq
      exact hwf q (List.mem_of_mem_filter hq)
  · rw [if_neg h1]
    exact ⟨hkeys, hwf⟩

/-- C10: in every Manager state reachable by any sequence of `create_instance`
and `remove_instance` calls, the instance table and the configuration table
carry exactly the same keys (in the same order), and `list_instances` never
fails — in particular every configuration lookup it performs succeeds. -/
theorem c10_instance_config_tables_key_equal (pm : PluginManager) (h : Reachable pm) :
    pm.instances.map Prod.fst = pm.configurations.map Prod.fst ∧
    (list_instances pm).isOk = true := by
  have hinv : ManagerInv pm := by
    induction h with
    | init reg => exact ⟨rfl, by intro q hq; cases hq⟩
    | create pm0 pid iid cfg h0 ih => exact managerInv_create pm0 pid iid cfg ih
    | remove pm0 iid h0 ih => exact managerInv_remove pm0 iid ih
  obtain ⟨hkeys, hwf⟩ := hinv
  refine ⟨hkeys, ?_⟩
  unfold list_instances
  exact listAux_isOk pm.configurations pm.instances
    (fun iid hm => by
      rw [aget_isSome_iff_mem, ← hkeys]
      exact hm)
    hwf

/-- C10 witness: the invariant at the concrete reachable state obtained by
creating one JSON-parser instance in an empty Manager. -/
theorem c10_witness :
    (create_instance ⟨defaultRegistry, [], []⟩ "processing:JSON Parser" "j1"
        [("source_field", Val.str "m")]).1.instances.map Prod.fst =
      (create_instance ⟨defaultRegistry, [], []⟩ "processing:JSON Parser" "j1"
        [("source_field", Val.str "m")]).1.configurations.map Prod.fst ∧
    (list_instances (create_instance ⟨defaultRegistry, [], []⟩ "processing:JSON Parser"
        "j1" [("source_field", Val.str "m")]).1).isOk = true :=
  c10_instance_config_tables_key_equal _
    (Reachable.create ⟨defaultRegistry, [], []⟩ "processing:JSON Parser" "j1"
      [("source_field", Val.str "m")] (Reachable.init defaultRegistry))

end AimlPortal
